import Mathlib

/-
Shallow embedding of the s-cache sharded key-value cache (src/cache.go).

The cache stores opaque values of a type parameter under string keys.
Keys are modelled as lists of byte values, hashed with FNV-1a into a
64-bit value, which routes the entry to one of the shards of the shard
table.  Machine arithmetic: the FNV hash is computed over Nat with an
explicit modulus 2 to the 64; the int32 statistics counters wrap with an
explicit two-complement reduction.  Time is an explicit Int parameter
standing for the value time.Now().UnixNano() reads at that call.
-/

namespace SCache

/-- From type Item in cache.go: the stored payload plus the absolute
expiration instant in nanoseconds, where 0 is the sentinel for an entry
that never expires. -/
structure Item (α : Type) where
  Object : α
  Expiration : Int
deriving DecidableEq, Repr

/-- From type lockMap in cache.go: one shard.  The embedded RWMutex is
sequential here; the lock discipline is modelled separately by event
traces below.  The Go map from uint64 hashes to items becomes an
association list. -/
structure lockMap (α : Type) where
  m : List (Nat × Item α)
deriving DecidableEq, Repr

/-- From type shardmap in cache.go: the fixed sequence of shards plus
the recorded shard count used for routing. -/
structure shardmap (α : Type) where
  shards : List (lockMap α)
  shardCount : Nat
deriving DecidableEq, Repr

/-- From type stats in cache.go: the int32 operation counters. -/
structure stats where
  ItemsCount : Int
  GetCount : Int
  SetCount : Int
  ReplaceCount : Int
  DeleteCount : Int
  AddCount : Int
  DeleteExpired : Int
deriving DecidableEq, Repr

/-- From type cache in cache.go (merged with its public wrapper Cache,
which only adds the finalizer trick; the janitor control task is not
part of the sequential state). -/
structure Cache (α : Type) where
  defaultExpiration : Int
  shards : shardmap α
  Statistic : stats
deriving DecidableEq, Repr

/-- Duration sentinel NoExpiration from cache.go. -/
def NoExpiration : Int := -1

/-- Duration sentinel DefaultExpiration from cache.go. -/
def DefaultExpiration : Int := 0

/-- Result of atomic.AddInt32: wrapping two-complement 32-bit addition. -/
def int32add (x d : Int) : Int :=
  (x + d + 2 ^ 31) % 2 ^ 32 - 2 ^ 31

/-- FNV-1a 64-bit offset basis, from hash/fnv. -/
def fnv64OffsetBasis : Nat := 14695981039346656037

/-- FNV-1a 64-bit prime, from hash/fnv. -/
def fnv64Prime : Nat := 1099511628211

/-- From calcHash in cache.go: FNV-1a over the bytes of the key, with
64-bit wrapping arithmetic made explicit. -/
def calcHash (s : List Nat) : Nat :=
  s.foldl (fun h b => ((h ^^^ b % 2 ^ 64) * fnv64Prime) % 2 ^ 64) fnv64OffsetBasis

/-- Go map lookup m[key] on the association-list model. -/
def mapLookup {α : Type} : List (Nat × Item α) → Nat → Option (Item α)
  | [], _ => none
  | p :: l, k => if p.1 = k then some p.2 else mapLookup l k

/-- Go map assignment m[key] = v: replace the binding if the key is
present, otherwise insert a fresh one. -/
def mapInsert {α : Type} : List (Nat × Item α) → Nat → Item α → List (Nat × Item α)
  | [], k, it => [(k, it)]
  | p :: l, k, it => if p.1 = k then (k, it) :: l else p :: mapInsert l k it

/-- Go builtin delete(m, key). -/
def mapErase {α : Type} (l : List (Nat × Item α)) (k : Nat) : List (Nat × Item α) :=
  l.filter (fun p => p.1 != k)

/-- From newShardMap in cache.go: ten fresh shards with empty maps. -/
def newShardMap (α : Type) : shardmap α :=
  { shards := List.replicate 10 ⟨[]⟩, shardCount := 10 }

/-- From the method expired of Item in cache.go: never expired when the
field is the 0 sentinel, otherwise expired exactly when now is strictly
past the expiration instant. -/
def Item.expired {α : Type} (item : Item α) (now : Int) : Bool :=
  if item.Expiration = 0 then false else decide (item.Expiration < now)

/-- Duration resolution at the head of Set in cache.go: the
DefaultExpiration sentinel is replaced by the default of the cache. -/
def resolveDuration {α : Type} (c : Cache α) (d : Int) : Int :=
  if d = DefaultExpiration then c.defaultExpiration else d

/-- The absolute expiration instant Set computes: now plus the resolved
duration when that duration is positive, otherwise the 0 sentinel. -/
def expFor {α : Type} (c : Cache α) (d now : Int) : Int :=
  if 0 < resolveDuration c d then now + resolveDuration c d else 0

/-- From Set in cache.go: resolve the duration, hash the key, route to
the shard, bump the set and item counters, store the item
unconditionally. -/
def Set {α : Type} (c : Cache α) (k : List Nat) (x : α) (d now : Int) : Cache α :=
  let key := calcHash k
  let idx := key % c.shards.shardCount
  let sh := c.shards.shards.getD idx ⟨[]⟩
  { c with
    Statistic := { c.Statistic with
      SetCount := int32add c.Statistic.SetCount 1,
      ItemsCount := int32add c.Statistic.ItemsCount 1 },
    shards := { c.shards with
      shards := c.shards.shards.set idx ⟨mapInsert sh.m key ⟨x, expFor c d now⟩⟩ } }

/-- From Get in cache.go: hash, route, look the key up; report
not-found on a missing or expired entry without touching the state, and
bump the get counter only on a hit. -/
def Get {α : Type} (c : Cache α) (k : List Nat) (now : Int) : (Option α × Bool) × Cache α :=
  let key := calcHash k
  let sh := c.shards.shards.getD (key % c.shards.shardCount) ⟨[]⟩
  match mapLookup sh.m key with
  | none => ((none, false), c)
  | some item =>
    if item.expired now then ((none, false), c)
    else ((some item.Object, true),
      { c with Statistic := { c.Statistic with
          GetCount := int32add c.Statistic.GetCount 1 } })

/-- The two error shapes fmt.Errorf produces in Add and Replace. -/
inductive CacheErr
  | alreadyExists
  | notFound
deriving DecidableEq, Repr

/-- From Add in cache.go: a Get followed, on a miss, by counter bumps
and a Set; on a hit the call fails and returns the state the inner Get
produced. -/
def Add {α : Type} (c : Cache α) (k : List Nat) (x : α) (d now : Int) :
    Except CacheErr Unit × Cache α :=
  let r := Get c k now
  if r.1.2 then (Except.error CacheErr.alreadyExists, r.2)
  else
    let c1 := { r.2 with Statistic := { r.2.Statistic with
      AddCount := int32add r.2.Statistic.AddCount 1,
      ItemsCount := int32add r.2.Statistic.ItemsCount 1 } }
    (Except.ok (), Set c1 k x d now)

/-- From Replace in cache.go: a Get followed, on a hit, by counter
bumps and a Set; on a miss the call fails and returns the state the
inner Get produced. -/
def Replace {α : Type} (c : Cache α) (k : List Nat) (x : α) (d now : Int) :
    Except CacheErr Unit × Cache α :=
  let r := Get c k now
  if !r.1.2 then (Except.error CacheErr.notFound, r.2)
  else
    let c1 := { r.2 with Statistic := { r.2.Statistic with
      ReplaceCount := int32add r.2.Statistic.ReplaceCount 1,
      ItemsCount := int32add r.2.Statistic.ItemsCount 1 } }
    (Except.ok (), Set c1 k x d now)

/-- From Delete in cache.go: hash, route, read the binding; when
present, decrement the item counter, increment the delete counter and
remove the binding, returning the previous value; no expiration check
is made.  The source performs these map accesses without taking the
shard lock; that aspect is modelled by the event traces below. -/
def Delete {α : Type} (c : Cache α) (k : List Nat) : (Option α × Bool) × Cache α :=
  let key := calcHash k
  let idx := key % c.shards.shardCount
  let sh := c.shards.shards.getD idx ⟨[]⟩
  match mapLookup sh.m key with
  | some v =>
    ((some v.Object, true),
      { c with
        Statistic := { c.Statistic with
          ItemsCount := int32add c.Statistic.ItemsCount (-1),
          DeleteCount := int32add c.Statistic.DeleteCount 1 },
        shards := { c.shards with shards := c.shards.shards.set idx ⟨mapErase sh.m key⟩ } })
  | none => ((none, false), c)

/-- The removal test of DeleteExpired in cache.go: a positive
expiration that the fixed sweep instant is strictly past. -/
def sweepCond {α : Type} (now : Int) (p : Nat × Item α) : Bool :=
  decide (0 < p.2.Expiration) && decide (p.2.Expiration < now)

/-- One entry of the inner loop of DeleteExpired: either drop the entry
and bump the expired-delete and item counters, or keep it. -/
def sweepEntry {α : Type} (now : Int) (acc : stats × List (Nat × Item α)) (p : Nat × Item α) :
    stats × List (Nat × Item α) :=
  if sweepCond now p then
    ({ acc.1 with
       DeleteExpired := int32add acc.1.DeleteExpired 1,
       ItemsCount := int32add acc.1.ItemsCount (-1) }, acc.2)
  else (acc.1, acc.2 ++ [p])

/-- One shard of the outer loop of DeleteExpired. -/
def sweepShard {α : Type} (now : Int) (acc : stats × List (lockMap α)) (sh : lockMap α) :
    stats × List (lockMap α) :=
  let r := sh.m.foldl (sweepEntry now) (acc.1, [])
  (r.1, acc.2 ++ [⟨r.2⟩])

/-- From DeleteExpired in cache.go: a single now instant is fixed at
the start, then every shard is swept in turn. -/
def DeleteExpired {α : Type} (c : Cache α) (now : Int) : Cache α :=
  let r := c.shards.shards.foldl (sweepShard now) (c.Statistic, [])
  { c with Statistic := r.1, shards := { c.shards with shards := r.2 } }

/-- From ItemCount in cache.go: the sum of the shard map sizes. -/
def ItemCount {α : Type} (c : Cache α) : Nat :=
  c.shards.shards.foldl (fun size sh => size + sh.m.length) 0

/-- From Flush in cache.go: replace the whole shard table with a fresh
one and reset the item counter (the other counters stay). -/
def Flush {α : Type} (c : Cache α) : Cache α :=
  { c with shards := newShardMap α, Statistic := { c.Statistic with ItemsCount := 0 } }

/-- Observer used by the theorems: the binding the cache currently
holds for a key, following the same hash and routing as Get. -/
def lookupItem {α : Type} (c : Cache α) (k : List Nat) : Option (Item α) :=
  mapLookup (c.shards.shards.getD (calcHash k % c.shards.shardCount) ⟨[]⟩).m (calcHash k)

/-- Well-formedness every constructed shard table has: the recorded
count equals the number of shards and is positive. -/
def shardmapWF {α : Type} (sm : shardmap α) : Prop :=
  sm.shardCount = sm.shards.length ∧ 0 < sm.shardCount

/-
Lock-discipline model.  Each cache operation is abstracted to the trace
of lock and shard-map events it performs on the shard it touches, read
off the statements of the corresponding Go function.  A trace is
disciplined when every map read happens under the read or the write
lock of that shard and every map write happens under the write lock.
-/

/-- An event on one shard: acquiring or releasing its write or read
lock, or touching its map. -/
inductive LockEv
  | wlock
  | wunlock
  | rlock
  | runlock
  | mapRead
  | mapWrite
deriving DecidableEq, Repr

/-- What the current holder of the lock of the shard is. -/
inductive LockSt
  | free
  | rheld
  | wheld
deriving DecidableEq, Repr

/-- One step of the discipline automaton; none marks a violation: a
map access without the needed lock, or a mismatched lock action. -/
def lockStep : Option LockSt → LockEv → Option LockSt
  | some LockSt.free, LockEv.wlock => some LockSt.wheld
  | some LockSt.wheld, LockEv.wunlock => some LockSt.free
  | some LockSt.free, LockEv.rlock => some LockSt.rheld
  | some LockSt.rheld, LockEv.runlock => some LockSt.free
  | some LockSt.rheld, LockEv.mapRead => some LockSt.rheld
  | some LockSt.wheld, LockEv.mapRead => some LockSt.wheld
  | some LockSt.wheld, LockEv.mapWrite => some LockSt.wheld
  | _, _ => none

/-- A trace keeps the discipline when the automaton accepts it. -/
def disciplined (evs : List LockEv) : Bool :=
  (evs.foldl lockStep (some LockSt.free)).isSome

/-- Trace of Set in cache.go on its target shard: shard.Lock(), the
map store, shard.Unlock(). -/
def SetEvents : List LockEv :=
  [LockEv.wlock, LockEv.mapWrite, LockEv.wunlock]

/-- Trace of Get in cache.go on its target shard: shard.RLock(), the
map read, shard.RUnlock(). -/
def GetEvents : List LockEv :=
  [LockEv.rlock, LockEv.mapRead, LockEv.runlock]

/-- Trace of Delete in cache.go on its target shard: the map read, and
when the key was found the map removal, with no lock call anywhere. -/
def DeleteEvents (found : Bool) : List LockEv :=
  if found then [LockEv.mapRead, LockEv.mapWrite] else [LockEv.mapRead]

/-- Trace of ItemCount in cache.go on one shard: m.RLock(), the length
read, m.RUnlock(). -/
def ItemCountShardEvents : List LockEv :=
  [LockEv.rlock, LockEv.mapRead, LockEv.runlock]

/-
Concrete fixtures the witness theorems evaluate the model on.
-/

/-- All-zero counters. -/
def stats0 : stats :=
  ⟨0, 0, 0, 0, 0, 0, 0⟩

/-- A fresh cache over Nat payloads with no default expiration. -/
def testCache : Cache Nat :=
  { defaultExpiration := -1, shards := newShardMap Nat, Statistic := stats0 }

/-- The fresh cache after storing value 7 under the empty key with a
duration of 5 at instant 0: the entry expires at instant 5. -/
def expiredCache : Cache Nat :=
  Set testCache [] 7 5 0

/-- The fresh cache after storing value 7 under the empty key with
NoExpiration at instant 0: the entry never expires. -/
def liveCache : Cache Nat :=
  Set testCache [] 7 NoExpiration 0

/-
Helper lemmas about the association-list map model.
-/

theorem mapLookup_mapInsert_self {α : Type} (l : List (Nat × Item α)) (k : Nat) (it : Item α) :
    mapLookup (mapInsert l k it) k = some it := by
  induction l with
  | nil => simp [mapInsert, mapLookup]
  | cons p l ih =>
    by_cases h : p.1 = k
    · simp [mapInsert, h, mapLookup]
    · simp [mapInsert, h, mapLookup, ih]

theorem mapLookup_mapErase_self {α : Type} (l : List (Nat × Item α)) (k : Nat) :
    mapLookup (mapErase l k) k = none := by
  unfold mapErase
  induction l with
  | nil => rfl
  | cons p l ih =>
    rw [List.filter_cons]
    by_cases h : p.1 = k
    · simp only [h, bne_self_eq_false, Bool.false_eq_true, if_false]
      exact ih
    · have hb : (p.1 != k) = true := by simp [h]
      simp only [hb, if_true, mapLookup, h, if_false]
      exact ih

theorem getD_set_self {β : Type} (l : List β) (i : Nat) (x d : β) (h : i < l.length) :
    (l.set i x).getD i d = x := by
  rw [List.getD_eq_getElem?_getD, List.getElem?_set_eq_of_lt x h]
  rfl

theorem getD_replicate_self {β : Type} (n i : Nat) (x : β) :
    (List.replicate n x).getD i x = x := by
  induction n generalizing i with
  | zero => cases i <;> rfl
  | succ n ih =>
    cases i with
    | zero => rfl
    | succ i =>
      rw [List.replicate_succ, List.getD_cons_succ]
      exact ih i

/-
Helper lemmas characterizing Get by the binding the cache holds.
-/

theorem Get_of_lookup_none {α : Type} {c : Cache α} {k : List Nat} (now : Int)
    (h : lookupItem c k = none) : Get c k now = ((none, false), c) := by
  unfold lookupItem at h
  unfold Get
  simp only [h]

theorem Get_of_lookup_expired {α : Type} {c : Cache α} {k : List Nat} {it : Item α} {now : Int}
    (h : lookupItem c k = some it) (he : it.expired now = true) :
    Get c k now = ((none, false), c) := by
  unfold lookupItem at h
  unfold Get
  simp only [h, he, if_true]

theorem Get_of_lookup_live {α : Type} {c : Cache α} {k : List Nat} {it : Item α} {now : Int}
    (h : lookupItem c k = some it) (he : it.expired now = false) :
    Get c k now = ((some it.Object, true),
      { c with Statistic := { c.Statistic with
          GetCount := int32add c.Statistic.GetCount 1 } }) := by
  unfold lookupItem at h
  unfold Get
  simp only [h, he, Bool.false_eq_true, if_false]

theorem Get_shards {α : Type} (c : Cache α) (k : List Nat) (now : Int) :
    (Get c k now).2.shards = c.shards := by
  rcases h : lookupItem c k with _ | it
  · rw [Get_of_lookup_none now h]
  · by_cases he : it.expired now
    · rw [Get_of_lookup_expired h he]
    · rw [Get_of_lookup_live h (by simpa using he)]

theorem Get_defaultExpiration {α : Type} (c : Cache α) (k : List Nat) (now : Int) :
    (Get c k now).2.defaultExpiration = c.defaultExpiration := by
  rcases h : lookupItem c k with _ | it
  · rw [Get_of_lookup_none now h]
  · by_cases he : it.expired now
    · rw [Get_of_lookup_expired h he]
    · rw [Get_of_lookup_live h (by simpa using he)]

theorem lookupItem_congr {α : Type} {c c2 : Cache α} (h : c.shards = c2.shards)
    (k : List Nat) : lookupItem c k = lookupItem c2 k := by
  unfold lookupItem
  rw [h]

/-
Helper lemmas about Set.
-/

theorem lookupItem_Set_self {α : Type} (c : Cache α) (h : shardmapWF c.shards)
    (k : List Nat) (x : α) (d now : Int) :
    lookupItem (Set c k x d now) k = some ⟨x, expFor c d now⟩ := by
  unfold lookupItem Set
  simp only []
  rw [getD_set_self, mapLookup_mapInsert_self]
  rw [← h.1]
  exact Nat.mod_lt _ h.2

theorem expired_expFor {α : Type} (c : Cache α) (x : α) (d now : Int) :
    (Item.mk x (expFor c d now)).expired now = false := by
  unfold Item.expired expFor
  by_cases h : 0 < resolveDuration c d
  · simp only [h, if_true]
    by_cases h0 : now + resolveDuration c d = 0
    · simp [h0]
    · simp only [h0, if_false]
      simp
      omega
  · simp [h]

theorem Get_Set_fst {α : Type} (c : Cache α) (h : shardmapWF c.shards)
    (k : List Nat) (x : α) (d now : Int) :
    (Get (Set c k x d now) k now).1 = (some x, true) := by
  rw [Get_of_lookup_live (lookupItem_Set_self c h k x d now) (expired_expFor c x d now)]

theorem expFor_noExpiration {α : Type} (c : Cache α) (now : Int) :
    expFor c NoExpiration now = 0 := by
  simp [expFor, resolveDuration, NoExpiration, DefaultExpiration]

/-- Iterating Get calls never changes the shard table. -/
theorem foldl_Get_shards {α : Type} (gets : List (List Nat × Int)) (c : Cache α) :
    (gets.foldl (fun st p => (Get st p.1 p.2).2) c).shards = c.shards := by
  induction gets generalizing c with
  | nil => rfl
  | cons p gets ih => rw [List.foldl_cons, ih, Get_shards]

/-
Helper lemmas about the expiration sweep.
-/

theorem sweepEntry_pos {α : Type} {now : Int} {p : Nat × Item α} (st : stats)
    (acc : List (Nat × Item α)) (h : sweepCond now p = true) :
    sweepEntry now (st, acc) p
      = ({ st with
           DeleteExpired := int32add st.DeleteExpired 1,
           ItemsCount := int32add st.ItemsCount (-1) }, acc) := by
  simp [sweepEntry, h]

theorem sweepEntry_neg {α : Type} {now : Int} {p : Nat × Item α} (st : stats)
    (acc : List (Nat × Item α)) (h : sweepCond now p = false) :
    sweepEntry now (st, acc) p = (st, acc ++ [p]) := by
  simp [sweepEntry, h]

theorem foldl_sweepEntry_snd {α : Type} (now : Int) (l : List (Nat × Item α)) :
    ∀ st acc, (l.foldl (sweepEntry now) (st, acc)).2
      = acc ++ l.filter (fun p => !sweepCond now p) := by
  induction l with
  | nil => intro st acc; simp
  | cons p l ih =>
    intro st acc
    rw [List.foldl_cons, List.filter_cons]
    by_cases h : sweepCond now p
    · rw [sweepEntry_pos st acc h, ih]
      simp [h]
    · rw [sweepEntry_neg st acc (by simpa using h), ih]
      simp [h]

theorem sweepShard_step {α : Type} (now : Int) (st : stats) (acc : List (lockMap α))
    (sh : lockMap α) :
    sweepShard now (st, acc) sh
      = ((sh.m.foldl (sweepEntry now) (st, [])).1,
         acc ++ [lockMap.mk (sh.m.foldl (sweepEntry now) (st, [])).2]) := rfl

theorem foldl_sweepShard_snd {α : Type} (now : Int) (shs : List (lockMap α)) :
    ∀ st acc, (shs.foldl (sweepShard now) (st, acc)).2
      = acc ++ shs.map (fun sh => lockMap.mk (sh.m.filter (fun p => !sweepCond now p))) := by
  induction shs with
  | nil => intro st acc; simp
  | cons sh shs ih =>
    intro st acc
    rw [List.foldl_cons, List.map_cons, sweepShard_step, ih, foldl_sweepEntry_snd]
    simp

theorem DeleteExpired_shards {α : Type} (c : Cache α) (now : Int) :
    (DeleteExpired c now).shards.shards
      = c.shards.shards.map (fun sh => lockMap.mk (sh.m.filter (fun p => !sweepCond now p))) := by
  unfold DeleteExpired
  have h := foldl_sweepShard_snd now c.shards.shards c.Statistic []
  simp only [List.nil_append] at h
  simp only [h]

theorem sweepCond_eq_expired {α : Type} (now : Int) (p : Nat × Item α)
    (h : 0 ≤ p.2.Expiration) : sweepCond now p = p.2.expired now := by
  unfold sweepCond Item.expired
  by_cases h0 : p.2.Expiration = 0
  · simp [h0]
  · have hpos : 0 < p.2.Expiration := lt_of_le_of_ne h (Ne.symm h0)
    simp [h0, hpos]

/-
Helper lemmas about Flush.
-/

theorem lookupItem_Flush {α : Type} (c : Cache α) (k : List Nat) :
    lookupItem (Flush c) k = none := by
  unfold lookupItem Flush newShardMap
  simp only []
  rw [getD_replicate_self]
  rfl

/-
Helper lemmas characterizing Delete, Add and Replace.
-/

theorem Delete_of_lookup_some {α : Type} {c : Cache α} {k : List Nat} {it : Item α}
    (hl : lookupItem c k = some it) :
    Delete c k = ((some it.Object, true),
      { c with
        Statistic := { c.Statistic with
          ItemsCount := int32add c.Statistic.ItemsCount (-1),
          DeleteCount := int32add c.Statistic.DeleteCount 1 },
        shards := { c.shards with
          shards := c.shards.shards.set (calcHash k % c.shards.shardCount)
            ⟨mapErase (c.shards.shards.getD (calcHash k % c.shards.shardCount) ⟨[]⟩).m
              (calcHash k)⟩ } }) := by
  unfold lookupItem at hl
  unfold Delete
  simp only [hl]

theorem Delete_of_lookup_none {α : Type} {c : Cache α} {k : List Nat}
    (hl : lookupItem c k = none) : Delete c k = ((none, false), c) := by
  unfold lookupItem at hl
  unfold Delete
  simp only [hl]

theorem lookupItem_Delete_self {α : Type} (c : Cache α) (hwf : shardmapWF c.shards)
    (k : List Nat) : lookupItem (Delete c k).2 k = none := by
  rcases hl : lookupItem c k with _ | it
  · rw [Delete_of_lookup_none hl]
    exact hl
  · rw [Delete_of_lookup_some hl]
    unfold lookupItem
    simp only []
    rw [getD_set_self, mapLookup_mapErase_self]
    rw [← hwf.1]
    exact Nat.mod_lt _ hwf.2

theorem Add_hit {α : Type} (c : Cache α) (k : List Nat) (x : α) (d now : Int)
    (hg : (Get c k now).1.2 = true) :
    Add c k x d now = (Except.error CacheErr.alreadyExists, (Get c k now).2) := by
  unfold Add
  simp only [hg, if_true]

theorem Add_miss {α : Type} (c : Cache α) (k : List Nat) (x : α) (d now : Int)
    (hg : (Get c k now).1.2 = false) :
    Add c k x d now = (Except.ok (),
      Set { (Get c k now).2 with Statistic := { (Get c k now).2.Statistic with
        AddCount := int32add (Get c k now).2.Statistic.AddCount 1,
        ItemsCount := int32add (Get c k now).2.Statistic.ItemsCount 1 } } k x d now) := by
  unfold Add
  simp only [hg, Bool.false_eq_true, if_false]

theorem Replace_miss {α : Type} (c : Cache α) (k : List Nat) (x : α) (d now : Int)
    (hg : (Get c k now).1.2 = false) :
    Replace c k x d now = (Except.error CacheErr.notFound, (Get c k now).2) := by
  unfold Replace
  simp only [hg, Bool.not_false, if_true]

theorem Replace_hit {α : Type} (c : Cache α) (k : List Nat) (x : α) (d now : Int)
    (hg : (Get c k now).1.2 = true) :
    Replace c k x d now = (Except.ok (),
      Set { (Get c k now).2 with Statistic := { (Get c k now).2.Statistic with
        ReplaceCount := int32add (Get c k now).2.Statistic.ReplaceCount 1,
        ItemsCount := int32add (Get c k now).2.Statistic.ItemsCount 1 } } k x d now) := by
  unfold Replace
  simp only [hg, Bool.not_true, Bool.false_eq_true, if_false]

/-
Well-formedness of the fixtures.
-/

theorem wf_testCache : shardmapWF testCache.shards :=
  ⟨rfl, by decide⟩

theorem wf_expiredCache : shardmapWF expiredCache.shards :=
  ⟨by decide, by decide⟩

theorem wf_liveCache : shardmapWF liveCache.shards :=
  ⟨by decide, by decide⟩

/-
Claim theorems.
-/

/-- Claim C1: after a Set of a key with NoExpiration, with only Get calls
in between, a later Get of that key returns the stored value and found
true, at whatever instant it runs and however many reads precede it. -/
theorem Set_noExpiration_Get_forever {α : Type} (c : Cache α)
    (hwf : shardmapWF c.shards) (k : List Nat) (v : α) (t : Int)
    (gets : List (List Nat × Int)) (t2 : Int) :
    (Get (gets.foldl (fun st p => (Get st p.1 p.2).2) (Set c k v NoExpiration t)) k t2).1
      = (some v, true) := by
  have hsh := foldl_Get_shards gets (Set c k v NoExpiration t)
  have hl1 : lookupItem (Set c k v NoExpiration t) k = some ⟨v, 0⟩ := by
    rw [lookupItem_Set_self c hwf, expFor_noExpiration]
  have hl2 : lookupItem (gets.foldl (fun st p => (Get st p.1 p.2).2)
      (Set c k v NoExpiration t)) k = some ⟨v, 0⟩ := by
    rw [lookupItem_congr hsh k]
    exact hl1
  rw [Get_of_lookup_live hl2 (by simp [Item.expired])]

/-- Witness for C1: a concrete never-expiring entry read twice in between
and still found much later. -/
theorem Set_noExpiration_Get_forever_witness :
    (Get ([([], 3), ([1], 7)].foldl (fun st p => (Get st p.1 p.2).2)
        (Set testCache [] 5 NoExpiration 0)) [] 1000000).1 = (some 5, true) :=
  Set_noExpiration_Get_forever testCache wf_testCache [] 5 0 [([], 3), ([1], 7)] 1000000

/-- Claim C2, settled against the code as a code bug: the trace of map
events Delete performs carries no lock event at all, so it violates the
lock discipline the claim states, while the traces of Set, Get and the
per-shard ItemCount read satisfy it. -/
theorem Delete_breaks_lock_discipline :
    disciplined (DeleteEvents true) = false
    ∧ disciplined (DeleteEvents false) = false
    ∧ disciplined SetEvents = true
    ∧ disciplined GetEvents = true
    ∧ disciplined ItemCountShardEvents = true := by decide

/-- Claim C5: an Item is expired exactly when its Expiration field is not
the 0 never-expires sentinel and the current instant is strictly greater
than the field; in particular a sentinel entry is never expired. -/
theorem Item_expired_iff {α : Type} (it : Item α) (now : Int) :
    it.expired now = true ↔ it.Expiration ≠ 0 ∧ it.Expiration < now := by
  unfold Item.expired
  by_cases h : it.Expiration = 0 <;> simp [h]

/-- Claim C6: Get on an absent key, or on a present but expired entry,
reports not-found and returns the state completely unchanged, so an
expired entry is still in its shard map afterwards. -/
theorem Get_miss_frame {α : Type} (c : Cache α) (k : List Nat) (now : Int)
    (h : lookupItem c k = none ∨ ∃ it, lookupItem c k = some it ∧ it.expired now = true) :
    Get c k now = ((none, false), c) := by
  rcases h with h | ⟨it, hl, he⟩
  · exact Get_of_lookup_none now h
  · exact Get_of_lookup_expired hl he

/-- Witness for C6: a concrete expired entry, read after its deadline. -/
theorem Get_miss_frame_witness :
    Get expiredCache [] 9 = ((none, false), expiredCache) :=
  Get_miss_frame expiredCache [] 9 (Or.inr ⟨⟨7, 5⟩, by decide, by decide⟩)

/-- Claim C8: after Flush the item count reads zero, Get misses on every
key at every instant, the ItemsCount statistic is zero, and the shard
table is a freshly constructed empty one. -/
theorem Flush_spec {α : Type} (c : Cache α) :
    ItemCount (Flush c) = 0
    ∧ (∀ (k : List Nat) (now : Int), (Get (Flush c) k now).1 = (none, false))
    ∧ (Flush c).Statistic.ItemsCount = 0
    ∧ (Flush c).shards = newShardMap α := by
  refine ⟨rfl, ?_, rfl, rfl⟩
  intro k now
  rw [Get_of_lookup_none now (lookupItem_Flush c k)]

/-- Claim C3: Add on an absent key or on an expired entry succeeds and the
new value is then readable; Add on a live entry fails with alreadyExists,
leaves the shard table untouched, and the old value is still readable. -/
theorem Add_spec {α : Type} (c : Cache α) (hwf : shardmapWF c.shards) (k : List Nat)
    (x : α) (d now : Int) :
    ((lookupItem c k = none ∨ ∃ it, lookupItem c k = some it ∧ it.expired now = true) →
      (Add c k x d now).1 = Except.ok ()
      ∧ (Get (Add c k x d now).2 k now).1 = (some x, true))
    ∧ (∀ it, lookupItem c k = some it → it.expired now = false →
      (Add c k x d now).1 = Except.error CacheErr.alreadyExists
      ∧ (Add c k x d now).2.shards = c.shards
      ∧ (Get (Add c k x d now).2 k now).1 = (some it.Object, true)) := by
  constructor
  · intro h
    have hg : Get c k now = ((none, false), c) := by
      rcases h with h | ⟨it, hl, he⟩
      · exact Get_of_lookup_none now h
      · exact Get_of_lookup_expired hl he
    have hflag : (Get c k now).1.2 = false := by rw [hg]
    rw [Add_miss c k x d now hflag, hg]
    refine ⟨rfl, Get_Set_fst _ ?_ k x d now⟩
    exact hwf
  · intro it hl he
    have hg := Get_of_lookup_live hl he
    have hflag : (Get c k now).1.2 = true := by rw [hg]
    rw [Add_hit c k x d now hflag]
    have hsh := Get_shards c k now
    have hl2 : lookupItem (Get c k now).2 k = some it := by
      rw [lookupItem_congr hsh k]
      exact hl
    exact ⟨rfl, hsh, by rw [Get_of_lookup_live hl2 he]⟩

/-- Witness for C3: Add on the fresh cache succeeds and is readable; Add
over a live entry fails and keeps the old value. -/
theorem Add_spec_witness :
    ((Add testCache [] 5 NoExpiration 0).1 = Except.ok ()
      ∧ (Get (Add testCache [] 5 NoExpiration 0).2 [] 0).1 = (some 5, true))
    ∧ ((Add liveCache [] 9 NoExpiration 3).1 = Except.error CacheErr.alreadyExists
      ∧ (Add liveCache [] 9 NoExpiration 3).2.shards = liveCache.shards
      ∧ (Get (Add liveCache [] 9 NoExpiration 3).2 [] 3).1 = (some 7, true)) :=
  ⟨(Add_spec testCache wf_testCache [] 5 NoExpiration 0).1 (Or.inl (by decide)),
   (Add_spec liveCache wf_liveCache [] 9 NoExpiration 3).2 ⟨7, 0⟩ (by decide) (by decide)⟩

/-- Claim C4: Replace on a live entry succeeds and a Get then returns the
new value; Replace on an absent key or on an expired entry fails with
notFound and the whole cache state is exactly as before the call. -/
theorem Replace_spec {α : Type} (c : Cache α) (hwf : shardmapWF c.shards) (k : List Nat)
    (x : α) (d now : Int) :
    (∀ it, lookupItem c k = some it → it.expired now = false →
      (Replace c k x d now).1 = Except.ok ()
      ∧ (Get (Replace c k x d now).2 k now).1 = (some x, true))
    ∧ ((lookupItem c k = none ∨ ∃ it, lookupItem c k = some it ∧ it.expired now = true) →
      Replace c k x d now = (Except.error CacheErr.notFound, c)) := by
  constructor
  · intro it hl he
    have hg := Get_of_lookup_live hl he
    have hflag : (Get c k now).1.2 = true := by rw [hg]
    rw [Replace_hit c k x d now hflag]
    refine ⟨rfl, ?_⟩
    have hwf2 : shardmapWF ({ (Get c k now).2 with
        Statistic := { (Get c k now).2.Statistic with
          ReplaceCount := int32add (Get c k now).2.Statistic.ReplaceCount 1,
          ItemsCount := int32add (Get c k now).2.Statistic.ItemsCount 1 } } : Cache α).shards := by
      have hsh := Get_shards c k now
      simp only [hsh]
      exact hwf
    exact Get_Set_fst _ hwf2 k x d now
  · intro h
    have hg : Get c k now = ((none, false), c) := by
      rcases h with h | ⟨it, hl, he⟩
      · exact Get_of_lookup_none now h
      · exact Get_of_lookup_expired hl he
    have hflag : (Get c k now).1.2 = false := by rw [hg]
    rw [Replace_miss c k x d now hflag, hg]

/-- Witness for C4: Replace over a live entry succeeds and updates the
value; Replace on the fresh cache fails and changes nothing. -/
theorem Replace_spec_witness :
    ((Replace liveCache [] 9 NoExpiration 3).1 = Except.ok ()
      ∧ (Get (Replace liveCache [] 9 NoExpiration 3).2 [] 3).1 = (some 9, true))
    ∧ Replace testCache [] 9 NoExpiration 0 = (Except.error CacheErr.notFound, testCache) :=
  ⟨(Replace_spec liveCache wf_liveCache [] 9 NoExpiration 3).1 ⟨7, 0⟩ (by decide) (by decide),
   (Replace_spec testCache wf_testCache [] 9 NoExpiration 0).2 (Or.inl (by decide))⟩

/-- Claim C9: Delete on a key whose shard map holds an entry returns the
previous value with existed true and removes it, so a later Get misses;
Delete on an absent key returns none with false and leaves the whole
state unchanged. -/
theorem Delete_spec {α : Type} (c : Cache α) (hwf : shardmapWF c.shards) (k : List Nat) :
    (∀ it, lookupItem c k = some it →
      (Delete c k).1 = (some it.Object, true)
      ∧ lookupItem (Delete c k).2 k = none
      ∧ ∀ now : Int, (Get (Delete c k).2 k now).1 = (none, false))
    ∧ (lookupItem c k = none → Delete c k = ((none, false), c)) := by
  constructor
  · intro it hl
    have hnone := lookupItem_Delete_self c hwf k
    refine ⟨by rw [Delete_of_lookup_some hl], hnone, ?_⟩
    intro now
    rw [Get_of_lookup_none now hnone]
  · intro hl
    exact Delete_of_lookup_none hl

/-- Witness for C9: deleting the single stored entry returns it and a Get
then misses; deleting from the fresh cache is the identity. -/
theorem Delete_spec_witness :
    ((Delete liveCache []).1 = (some 7, true)
      ∧ (Get (Delete liveCache []).2 [] 0).1 = (none, false))
    ∧ Delete testCache [] = ((none, false), testCache) :=
  ⟨⟨((Delete_spec liveCache wf_liveCache []).1 ⟨7, 0⟩ (by decide)).1,
    ((Delete_spec liveCache wf_liveCache []).1 ⟨7, 0⟩ (by decide)).2.2 0⟩,
   (Delete_spec testCache wf_testCache []).2 (by decide)⟩

/-- Claim C10: Delete makes no expiration check: on an expired but present
entry it returns the stored value with existed true, decrements the item
counter and increments the delete counter, even though a Get at the same
instant reports not-found. -/
theorem Delete_ignores_expiration {α : Type} (c : Cache α) (k : List Nat) (it : Item α)
    (now : Int) (hl : lookupItem c k = some it) (he : it.expired now = true) :
    (Delete c k).1 = (some it.Object, true)
    ∧ (Delete c k).2.Statistic.ItemsCount = int32add c.Statistic.ItemsCount (-1)
    ∧ (Delete c k).2.Statistic.DeleteCount = int32add c.Statistic.DeleteCount 1
    ∧ (Get c k now).1 = (none, false) := by
  rw [Delete_of_lookup_some hl, Get_of_lookup_expired hl he]
  exact ⟨rfl, rfl, rfl, rfl⟩

/-- Witness for C10: the concrete expired entry is still handed back by
Delete with both counters moved, while Get misses on it. -/
theorem Delete_ignores_expiration_witness :
    (Delete expiredCache []).1 = (some 7, true)
    ∧ (Delete expiredCache []).2.Statistic.ItemsCount
        = int32add expiredCache.Statistic.ItemsCount (-1)
    ∧ (Delete expiredCache []).2.Statistic.DeleteCount
        = int32add expiredCache.Statistic.DeleteCount 1
    ∧ (Get expiredCache [] 9).1 = (none, false) :=
  Delete_ignores_expiration expiredCache [] ⟨7, 5⟩ 9 (by decide) (by decide)

/-- Claim C7: DeleteExpired sweeps every shard against the single instant
fixed for the whole pass: an entry of any shard survives the sweep exactly
when it is not expired at that instant, so every entry expired at that
instant is removed and no live entry is, given the cache invariant that
stored expirations are never negative. -/
theorem DeleteExpired_removes_exactly {α : Type} (c : Cache α) (now : Int)
    (hE : ∀ sh ∈ c.shards.shards, ∀ p ∈ sh.m, 0 ≤ p.2.Expiration) :
    ∀ (i : Nat) (p : Nat × Item α),
      p ∈ ((DeleteExpired c now).shards.shards.getD i ⟨[]⟩).m
        ↔ p ∈ (c.shards.shards.getD i ⟨[]⟩).m ∧ p.2.expired now = false := by
  intro i p
  rw [DeleteExpired_shards]
  by_cases hi : i < c.shards.shards.length
  · rw [List.getD_eq_getElem?_getD, List.getD_eq_getElem?_getD, List.getElem?_map,
      List.getElem?_eq_getElem hi]
    simp only [Option.map_some', Option.getD_some]
    rw [List.mem_filter]
    refine and_congr_right fun hp => ?_
    have h0 : 0 ≤ p.2.Expiration :=
      hE (c.shards.shards[i]) (List.getElem_mem hi) p hp
    rw [sweepCond_eq_expired now p h0]
    cases p.2.expired now <;> simp
  · have hlen : c.shards.shards.length ≤ i := Nat.le_of_not_lt hi
    rw [List.getD_eq_getElem?_getD, List.getD_eq_getElem?_getD,
      List.getElem?_eq_none (by simpa using hlen), List.getElem?_eq_none hlen]
    simp

/-- Witness for C7: the concrete expired entry of the fixture cache is in
its shard before the sweep at instant 9 and gone after it. -/
theorem DeleteExpired_removes_exactly_witness :
    (fnv64OffsetBasis, (⟨7, 5⟩ : Item Nat))
        ∈ ((DeleteExpired expiredCache 9).shards.shards.getD 7 ⟨[]⟩).m
      ↔ (fnv64OffsetBasis, (⟨7, 5⟩ : Item Nat))
          ∈ (expiredCache.shards.shards.getD 7 ⟨[]⟩).m
        ∧ (⟨7, 5⟩ : Item Nat).expired 9 = false :=
  DeleteExpired_removes_exactly expiredCache 9 (by decide) 7 (fnv64OffsetBasis, ⟨7, 5⟩)

end SCache
